import Mathlib

/-!
Shallow embedding of the metrics/alerting computation layer of the
boiler-dashboard repository (src/boiler_dashboard.py, src/boiler_dashboard2.py).

Dates are modelled as integers (calendar dates are totally ordered and only
compared).  Metric values are rationals; a missing value is `none`
(pandas NaN with skipna semantics).  The dataframe is a list of observations.
-/

namespace BoilerDashboard

/-- The numeric columns of the generated dataframe
(boiler_dashboard.py lines 84-92). -/
inductive Metric where
  | efficiency
  | fuelConsumed
  | temperature
  | pressure
  | operatingHours
  | steamOutput
deriving DecidableEq, Repr

/-- One row of the dataframe: a date plus the numeric columns.
A `none` field is a missing (NaN) value. -/
structure Obs where
  date : ℤ
  efficiency : Option ℚ
  fuelConsumed : Option ℚ
  temperature : Option ℚ
  pressure : Option ℚ
  operatingHours : Option ℚ
  steamOutput : Option ℚ
deriving DecidableEq, Repr

/-- Column access by metric name. -/
def Obs.val (o : Obs) : Metric → Option ℚ
  | .efficiency => o.efficiency
  | .fuelConsumed => o.fuelConsumed
  | .temperature => o.temperature
  | .pressure => o.pressure
  | .operatingHours => o.operatingHours
  | .steamOutput => o.steamOutput

/-- The closed date interval selected in the sidebar
(`start_date`, `end_date`; boiler_dashboard.py lines 144-145). -/
structure DateRange where
  start_date : ℤ
  end_date : ℤ
deriving DecidableEq, Repr

/-- Membership of a date in the closed interval. -/
def inRange (r : DateRange) (d : ℤ) : Prop :=
  r.start_date ≤ d ∧ d ≤ r.end_date

instance (r : DateRange) (d : ℤ) : Decidable (inRange r d) := by
  unfold inRange; infer_instance

/-- `mask = (df.Date >= start) & (df.Date <= end); filtered_df = df.loc[mask]`
(boiler_dashboard.py lines 156-158): keep the rows whose date lies in the
closed interval, in their original order. -/
def computeWindow (dataset : List Obs) (r : DateRange) : List Obs :=
  dataset.filter (fun o => decide (inRange r o.date))

/-- The non-missing values of a metric over a window, in row order
(pandas aggregation with the default `skipna=True`). -/
def metricVals (w : List Obs) (m : Metric) : List ℚ :=
  w.filterMap (fun o => o.val m)

/-- The aggregator chosen per metric: ratio-like metrics use mean,
cumulative ones use sum. -/
inductive Aggregator where
  | mean
  | sum
deriving DecidableEq, Repr

/-- Arithmetic mean of a list of rationals (`Series.mean`). -/
def meanVal (vs : List ℚ) : ℚ := vs.sum / vs.length

/-- Total aggregate value of a list of non-missing values, as the source
computes it on a non-empty window (`.mean()` at line 194, `.sum()` at
line 214 of boiler_dashboard.py). -/
def aggRaw : Aggregator → List ℚ → ℚ
  | .mean, vs => meanVal vs
  | .sum, vs => vs.sum

/-- Aggregate with pandas missing-value semantics: `mean` of no values is
NaN (`none`), `sum` of no values is 0. -/
def aggO : Aggregator → List ℚ → Option ℚ
  | .mean, vs => if vs.isEmpty then none else some (meanVal vs)
  | .sum, vs => some vs.sum

/-- Modelled from the spec: `summarize` short-circuits to the Undefined
marker on an empty window (spec section 4.1 and section 7).  The source never
aggregates an empty window because the empty case stops the page earlier
(boiler_dashboard.py lines 160-162); on a non-empty window the aggregate is
the pandas one. -/
def summarize (w : List Obs) (m : Metric) (agg : Aggregator) : Option ℚ :=
  if w.isEmpty then none else aggO agg (metricVals w m)

/-- `filtered_df["Date"].min()` (boiler_dashboard.py line 196):
earliest date of a window, `none` when the window is empty. -/
def minimumDate : List Obs → Option ℤ
  | [] => none
  | o :: t => some (t.foldl (fun a b => min a b.date) o.date)

/-- `df.loc[df["Date"] < filtered_df["Date"].min()]`
(boiler_dashboard.py line 196): the observations of the dataset strictly
before the window's earliest date. -/
def priorObs (dataset w : List Obs) : List Obs :=
  match minimumDate w with
  | none => []
  | some d0 => dataset.filter (fun o => decide (o.date < d0))

/-- KPI delta computation (boiler_dashboard.py lines 194-200 for mean,
boiler_dashboard2.py lines 215-221 for sum): returns
(current, previous, delta).  `previous` falls back to `current` when no
observation precedes the window, and the NaN guard of line 200 also falls
back to `current` when the prior aggregate is undefined. -/
def periodOverPeriodDelta (dataset w : List Obs) (m : Metric)
    (agg : Aggregator) : ℚ × ℚ × ℚ :=
  let current := aggRaw agg (metricVals w m)
  let prior := priorObs dataset w
  let previous :=
    (if prior.isEmpty then some current else aggO agg (metricVals prior m)).getD
      current
  (current, previous, current - previous)

/-- Modelled from the spec: the ordered sort of the values used by the
quantile; the source takes quantiles through numpy/pandas which sort the
column. -/
def sortedVals (vs : List ℚ) : List ℚ := List.insertionSort (· ≤ ·) vs

/-- Floor of a rational as Euclidean division of numerator by denominator;
equal to the mathematical floor (see `ratFloor_eq_floor`) but reducible by
the kernel. -/
def ratFloor (x : ℚ) : ℤ := x.num / (x.den : ℤ)

/-- Modelled from the spec: quantile with linear interpolation between
closest ranks (the numpy/pandas default), Undefined on no data. -/
def quantile (q : ℚ) (vs : List ℚ) : Option ℚ :=
  if vs.isEmpty then none
  else
    let s := sortedVals vs
    let h := q * ((s.length : ℚ) - 1)
    let i := (ratFloor h).toNat
    let v1 := s.getD i 0
    let v2 := s.getD (i + 1) v1
    some (v1 + (h - (i : ℚ)) * (v2 - v1))

/-- The observation of a window with the maximum date, `none` when the
window is empty. -/
def latestObs : List Obs → Option Obs
  | [] => none
  | o :: t => some (t.foldl (fun a b => if a.date < b.date then b else a) o)

/-- Severity of an alert. -/
inductive Severity where
  | high
  | medium
deriving DecidableEq, Repr

/-- Kind of a built-in alert rule. -/
inductive AlertKind where
  | lowEfficiency
  | highFuel
deriving DecidableEq, Repr

/-- A triggered alert. -/
structure Alert where
  kind : AlertKind
  severity : Severity
deriving DecidableEq, Repr

/-- Modelled from the spec: `detectAlerts` is absent from the source files
(only the spec's alert table defines it).  Low efficiency fires when the
latest window observation's efficiency is strictly below the full dataset's
25th percentile; high fuel fires when its fuel is strictly above the 75th
percentile; rules are evaluated in table order and skipped on an empty
window or a missing value. -/
def detectAlerts (dataset w : List Obs) : List Alert :=
  match latestObs w with
  | none => []
  | some o =>
      (match o.efficiency, quantile (1/4) (metricVals dataset .efficiency) with
       | some e, some t => if e < t then [⟨.lowEfficiency, .high⟩] else []
       | _, _ => []) ++
      (match o.fuelConsumed, quantile (3/4) (metricVals dataset .fuelConsumed) with
       | some f, some t => if t < f then [⟨.highFuel, .medium⟩] else []
       | _, _ => [])

/-- The qualifying points of a metric pair: observations with both values
non-missing, in row order (pairwise deletion, as pandas and the OLS
trendline perform it). -/
def pairVals (w : List Obs) (a b : Metric) : List (ℚ × ℚ) :=
  w.filterMap (fun o =>
    match o.val a, o.val b with
    | some x, some y => some (x, y)
    | _, _ => none)

/-- Modelled from the spec: ordinary least squares over the qualifying
points of the window, as the `trendline="ols"` call delegates it to an
external library (boiler_dashboard.py lines 260-277).  Returns
(slope, intercept), or Undefined with fewer than 2 points or a degenerate
all-identical x column. -/
def regressionTrend (w : List Obs) (mx my : Metric) : Option (ℚ × ℚ) :=
  let pts := pairVals w mx my
  if pts.length < 2 then none
  else
    let xbar := meanVal (pts.map Prod.fst)
    let ybar := meanVal (pts.map Prod.snd)
    let sxx := (pts.map (fun p => (p.1 - xbar) ^ 2)).sum
    if sxx = 0 then none
    else
      let slope := (pts.map (fun p => (p.1 - xbar) * (p.2 - ybar))).sum / sxx
      some (slope, ybar - slope * xbar)

/-- Summary record of `Series.describe` (boiler_dashboard.py line 345).
`stdSq` is the square of the sample standard deviation; pandas reports the
standard deviation itself, whose squaring is a bijection on the non-negative
reals, and it is NaN exactly when `stdSq` is `none`. -/
structure DistSummary where
  count : ℕ
  mean : ℚ
  stdSq : Option ℚ
  min : ℚ
  max : ℚ
deriving DecidableEq, Repr

/-- Modelled from the spec for the empty case: descriptive statistics of
the non-missing values of a metric over a window; Undefined when there are
none.  With values present it follows `Series.describe`: count of
non-missing values, mean, sample (n-1) standard deviation (NaN for a single
value), min and max. -/
def describeDistribution (w : List Obs) (m : Metric) : Option DistSummary :=
  match metricVals w m with
  | [] => none
  | v :: vs =>
      let n := (v :: vs).length
      let μ := (v :: vs).sum / (n : ℚ)
      some
        { count := n
          mean := μ
          stdSq :=
            if vs.isEmpty then none
            else some (((v :: vs).map (fun x => (x - μ) ^ 2)).sum / ((n : ℚ) - 1))
          min := vs.foldl Min.min v
          max := vs.foldl Max.max v }

/-- Total squared deviation of a list of values from its mean, the building
block of the correlation divisor. -/
def sqDev (vs : List ℚ) : ℚ := (vs.map (fun x => (x - meanVal vs) ^ 2)).sum

/-- The rational core of one entry of `numeric_df.corr()`
(boiler_dashboard.py lines 300-301, the pandas `nancorr` kernel): pairwise
deletion of missing values, `none` with fewer than two common observations
or a zero divisor product, otherwise the triple
(covariance sum, x squared-deviation sum, y squared-deviation sum). -/
def corrCore (w : List Obs) (a b : Metric) : Option (ℚ × ℚ × ℚ) :=
  let pts := pairVals w a b
  let xs := pts.map Prod.fst
  let ys := pts.map Prod.snd
  if pts.length < 2 then none
  else
    let sxx := sqDev xs
    let syy := sqDev ys
    let sxy := (pts.map (fun p => (p.1 - meanVal xs) * (p.2 - meanVal ys))).sum
    if sxx * syy = 0 then none else some (sxy, sxx, syy)

/-- One entry of the Pearson correlation matrix `corr_matrix`
(boiler_dashboard.py line 301): the pandas kernel divides the covariance sum
by the square root of the product of the squared-deviation sums, with NaN
(`none`) when that divisor is zero or fewer than two common observations
exist.  The value needs a real square root, hence the noncomputable marker;
all the definedness logic lives in the computable `corrCore`. -/
noncomputable def corr_matrix (w : List Obs) (a b : Metric) : Option ℝ :=
  (corrCore w a b).map
    (fun t => (t.1 : ℝ) / Real.sqrt ((t.2.1 : ℝ) * (t.2.2 : ℝ)))

/-- `np.clip(x, lo, hi)` for `lo ≤ hi`. -/
def clip (lo hi x : ℚ) : ℚ := min (max x lo) hi

/-- The synthetic dataset builder `generate_sample_data`
(boiler_dashboard.py lines 78-93), parameterized by the pseudo-random draws
it consumes: `base_fuel ~ U(100,500)`, normal noise, and the other columns.
Efficiency is the clipped parabola
`clip(85 - (fuel - 300)^2 / 8000 + noise, 65, 95)`; steam output is
`fuel * 2.5 + noise`. -/
def generate_sample_data (n : ℕ) (dates : ℕ → ℤ)
    (baseFuel noise temp pres hours steamNoise : ℕ → ℚ) : List Obs :=
  (List.range n).map (fun i =>
    { date := dates i
      efficiency := some (clip 65 95 (85 - (baseFuel i - 300) ^ 2 / 8000 + noise i))
      fuelConsumed := some (baseFuel i)
      temperature := some (temp i)
      pressure := some (pres i)
      operatingHours := some (hours i)
      steamOutput := some (baseFuel i * 5 / 2 + steamNoise i) })

/-- A concrete observation used by witnesses. -/
def obsA : Obs := ⟨0, some 70, some 300, some 90, some 30, some 12, some 750⟩

/-- A concrete observation used by witnesses. -/
def obsB : Obs := ⟨1, some 80, some 400, some 95, some 35, some 14, some 1000⟩

/-- A concrete observation used by witnesses. -/
def obsC : Obs := ⟨2, some 75, some 350, some 92, some 32, some 13, some 870⟩

/-- A concrete observation used by witnesses. -/
def obsE : Obs := ⟨3, some 85, some 450, some 98, some 38, some 15, some 1100⟩

/-- A concrete observation whose efficiency repeats the one of `obsA`,
used by the constant-column counterexample. -/
def obsF : Obs := ⟨1, some 70, some 400, some 95, some 35, some 14, some 1000⟩

/-- A ten-day window with fuel constant at 300, the degenerate regression
example of the spec. -/
def constWindow : List Obs :=
  (List.range 10).map
    (fun i => ⟨(i : ℤ), some (70 + (i : ℚ)), some 300, none, none, none, none⟩)

/-- Claim C1: computeWindow on a date-ascending dataset returns exactly the
observations whose date lies in the closed interval, both endpoints included,
as a sublist of the dataset (hence preserving ascending date order). -/
theorem computeWindow_mem_sorted (D : List Obs) (R : DateRange)
    (hR : R.start_date ≤ R.end_date)
    (hD : D.Pairwise (fun a b => a.date ≤ b.date)) :
    (∀ o, o ∈ computeWindow D R ↔
        (o ∈ D ∧ R.start_date ≤ o.date ∧ o.date ≤ R.end_date)) ∧
    (computeWindow D R).Sublist D ∧
    (computeWindow D R).Pairwise (fun a b => a.date ≤ b.date) := by
  refine ⟨?_, ?_, ?_⟩
  · intro o
    simp [computeWindow, List.mem_filter, inRange]
  · exact List.filter_sublist D
  · exact hD.sublist (List.filter_sublist D)

/-- Witness for C1 at a concrete dataset and range. -/
theorem computeWindow_mem_sorted_witness :
    ((0 : ℤ) ≤ (1 : ℤ)) ∧
    (∀ o, o ∈ computeWindow
        [⟨0, some 70, some 300, none, none, none, none⟩,
         ⟨2, some 80, some 400, none, none, none, none⟩] ⟨0, 1⟩ ↔
      (o ∈ [(⟨0, some 70, some 300, none, none, none, none⟩ : Obs),
            ⟨2, some 80, some 400, none, none, none, none⟩] ∧
        (0 : ℤ) ≤ o.date ∧ o.date ≤ 1)) := by
  refine ⟨by decide, ?_⟩
  exact (computeWindow_mem_sorted _ _ (by decide) (by decide)).1

/-- Claim C9: filtering an already-filtered window with the same range changes
nothing: computeWindow is idempotent. -/
theorem computeWindow_idempotent (D : List Obs) (R : DateRange) :
    computeWindow (computeWindow D R) R = computeWindow D R := by
  simp [computeWindow, List.filter_filter]

/-- The reducible floor used by the quantile agrees with the mathematical
floor. -/
theorem ratFloor_eq_floor (x : ℚ) : ratFloor x = ⌊x⌋ := by
  rw [ratFloor, Rat.floor_def]

/-- A non-empty list of values has a defined aggregate equal to the raw one. -/
theorem aggO_eq_some (agg : Aggregator) (vs : List ℚ) (h : vs ≠ []) :
    aggO agg vs = some (aggRaw agg vs) := by
  cases vs with
  | nil => exact absurd rfl h
  | cons v t => cases agg <;> simp [aggO, aggRaw]

/-- A non-empty list of observations all carrying the metric has non-missing
values for it. -/
theorem metricVals_ne_nil (l : List Obs) (m : Metric) (hl : l ≠ [])
    (hv : ∀ o ∈ l, o.val m ≠ none) : metricVals l m ≠ [] := by
  cases l with
  | nil => exact absurd rfl hl
  | cons o t =>
      obtain ⟨v, hv0⟩ :=
        Option.ne_none_iff_exists'.mp (hv o (List.mem_cons_self o t))
      simp [metricVals, List.filterMap_cons, hv0]

/-- Observations prior to a window are observations of the dataset. -/
theorem priorObs_subset (dataset w : List Obs) (o : Obs)
    (h : o ∈ priorObs dataset w) : o ∈ dataset := by
  unfold priorObs at h
  cases hmin : minimumDate w with
  | none => rw [hmin] at h; simp at h
  | some d0 => rw [hmin] at h; exact (List.mem_filter.mp h).1

/-- Claim C2: the KPI delta uses the aggregate over all observations strictly
before the window's earliest date as `previous`; with no prior observation,
previous = current and delta = 0; otherwise delta = current - previous. -/
theorem periodOverPeriodDelta_spec (D w : List Obs) (m : Metric)
    (agg : Aggregator) (hD : ∀ o ∈ D, o.val m ≠ none) :
    (priorObs D w = [] →
      (periodOverPeriodDelta D w m agg).2.1 = (periodOverPeriodDelta D w m agg).1 ∧
      (periodOverPeriodDelta D w m agg).2.2 = 0) ∧
    (priorObs D w ≠ [] →
      (periodOverPeriodDelta D w m agg).2.1 =
        aggRaw agg (metricVals (priorObs D w) m) ∧
      (periodOverPeriodDelta D w m agg).2.2 =
        (periodOverPeriodDelta D w m agg).1 -
          (periodOverPeriodDelta D w m agg).2.1) := by
  constructor
  · intro h
    simp [periodOverPeriodDelta, h]
  · intro h
    have hvals : metricVals (priorObs D w) m ≠ [] :=
      metricVals_ne_nil _ _ h (fun o ho => hD o (priorObs_subset D w o ho))
    have hne : (priorObs D w).isEmpty = false := by
      cases hp : priorObs D w with
      | nil => exact absurd hp h
      | cons a t => simp
    simp [periodOverPeriodDelta, hne, aggO_eq_some _ _ hvals]

/-- Witness for C2 on a two-day dataset with a one-day window. -/
theorem periodOverPeriodDelta_spec_witness :
    (∀ o ∈ ([obsA, obsB] : List Obs), o.val .efficiency ≠ none) ∧
    priorObs [obsA, obsB] [obsB] ≠ [] ∧
    ((periodOverPeriodDelta [obsA, obsB] [obsB] .efficiency .mean).2.1 =
        aggRaw .mean (metricVals (priorObs [obsA, obsB] [obsB]) .efficiency) ∧
      (periodOverPeriodDelta [obsA, obsB] [obsB] .efficiency .mean).2.2 =
        (periodOverPeriodDelta [obsA, obsB] [obsB] .efficiency .mean).1 -
          (periodOverPeriodDelta [obsA, obsB] [obsB] .efficiency .mean).2.1) :=
  ⟨by decide, by decide,
    (periodOverPeriodDelta_spec [obsA, obsB] [obsB] .efficiency .mean
      (by decide)).2 (by decide)⟩

/-- Claim C3: on a range producing an empty window every operation returns
its documented empty result instead of failing: summarize and
describeDistribution are Undefined for every metric and aggregator,
detectAlerts is the empty alert sequence, regressionTrend is Undefined. -/
theorem emptyWindow_behavior (D D0 : List Obs) (R : DateRange)
    (h : computeWindow D R = []) :
    (∀ m agg, summarize (computeWindow D R) m agg = none) ∧
    (∀ m, describeDistribution (computeWindow D R) m = none) ∧
    detectAlerts D0 (computeWindow D R) = [] ∧
    (∀ mx my, regressionTrend (computeWindow D R) mx my = none) := by
  rw [h]
  exact ⟨fun m agg => rfl, fun m => rfl, rfl, fun mx my => rfl⟩

/-- Witness for C3 with a range entirely after the dataset. -/
theorem emptyWindow_behavior_witness :
    computeWindow [obsA] ⟨5, 6⟩ = [] ∧
    summarize (computeWindow [obsA] ⟨5, 6⟩) .efficiency .sum = none ∧
    detectAlerts [obsA] (computeWindow [obsA] ⟨5, 6⟩) = [] :=
  ⟨by decide,
    (emptyWindow_behavior [obsA] [obsA] ⟨5, 6⟩ (by decide)).1 .efficiency .sum,
    (emptyWindow_behavior [obsA] [obsA] ⟨5, 6⟩ (by decide)).2.2.1⟩

/-- The sum of a metric over a cons decomposes. -/
theorem metricVals_cons_sum (o : Obs) (l : List Obs) (m : Metric) :
    (metricVals (o :: l) m).sum = (o.val m).getD 0 + (metricVals l m).sum := by
  cases h : o.val m <;> simp [metricVals, List.filterMap_cons, h]

/-- Claim C8: for two ranges that split the dataset (every observation in
exactly one of them), the fuel sums of the two windows add up to the fuel
sum of the full dataset, exactly. -/
theorem sum_split (D : List Obs) (R1 R2 : DateRange)
    (hdisj : ∀ o ∈ D, ¬(inRange R1 o.date ∧ inRange R2 o.date))
    (hcov : ∀ o ∈ D, inRange R1 o.date ∨ inRange R2 o.date) :
    (metricVals (computeWindow D R1) .fuelConsumed).sum +
      (metricVals (computeWindow D R2) .fuelConsumed).sum =
    (metricVals D .fuelConsumed).sum := by
  induction D with
  | nil => simp [computeWindow, metricVals]
  | cons o t ih =>
      have h0 := hdisj o (List.mem_cons_self o t)
      have ih2 := ih (fun x hx => hdisj x (List.mem_cons_of_mem o hx))
        (fun x hx => hcov x (List.mem_cons_of_mem o hx))
      rcases hcov o (List.mem_cons_self o t) with h1 | h2
      · have h2 : ¬ inRange R2 o.date := fun hh => h0 ⟨h1, hh⟩
        simp only [computeWindow, List.filter_cons, decide_eq_true_eq, h1, h2,
          if_true, if_false, metricVals_cons_sum] at ih2 ⊢
        linarith
      · have h1 : ¬ inRange R1 o.date := fun hh => h0 ⟨hh, h2⟩
        simp only [computeWindow, List.filter_cons, decide_eq_true_eq, h1, h2,
          if_true, if_false, metricVals_cons_sum] at ih2 ⊢
        linarith

/-- Witness for C8: a three-day dataset split into the first two days and
the last day. -/
theorem sum_split_witness :
    (metricVals (computeWindow [obsA, obsB, obsC] ⟨0, 1⟩) .fuelConsumed).sum +
      (metricVals (computeWindow [obsA, obsB, obsC] ⟨2, 2⟩) .fuelConsumed).sum =
    (metricVals [obsA, obsB, obsC] .fuelConsumed).sum :=
  sum_split [obsA, obsB, obsC] ⟨0, 1⟩ ⟨2, 2⟩ (by decide) (by decide)

/-- Claim C7: with exactly one non-missing value the description has
count 1, an Undefined standard deviation, and min = max = mean; with more
values the (squared) standard deviation uses the sample n-1 denominator. -/
theorem describeDistribution_single (w : List Obs) (m : Metric) :
    (∀ v, metricVals w m = [v] →
      describeDistribution w m =
        some { count := 1, mean := v, stdSq := none, min := v, max := v }) ∧
    (∀ v vs, metricVals w m = v :: vs → vs ≠ [] →
      describeDistribution w m =
        some { count := (v :: vs).length
               mean := (v :: vs).sum / ((v :: vs).length : ℚ)
               stdSq := some
                 (((v :: vs).map
                     (fun x => (x - (v :: vs).sum / ((v :: vs).length : ℚ)) ^ 2)).sum /
                   (((v :: vs).length : ℚ) - 1))
               min := vs.foldl Min.min v
               max := vs.foldl Max.max v }) := by
  constructor
  · intro v h
    simp [describeDistribution, h]
  · intro v vs h hvs
    have hne : vs.isEmpty = false := by
      cases vs with
      | nil => exact absurd rfl hvs
      | cons a t => rfl
    simp [describeDistribution, h, hne]

/-- Witness for C7 on a single-observation window. -/
theorem describeDistribution_single_witness :
    metricVals [obsA] .efficiency = [70] ∧
    describeDistribution [obsA] .efficiency =
      some { count := 1, mean := 70, stdSq := none, min := 70, max := 70 } :=
  ⟨by decide, (describeDistribution_single [obsA] .efficiency).1 70 (by decide)⟩

/-- A list whose members all equal a constant sums to length times it. -/
theorem sum_const (xs : List ℚ) (c : ℚ) (h : ∀ x ∈ xs, x = c) :
    xs.sum = xs.length * c := by
  induction xs with
  | nil => simp
  | cons a t ih =>
      rw [List.sum_cons, ih (fun x hx => h x (List.mem_cons_of_mem a hx)),
        h a (List.mem_cons_self a t)]
      simp only [List.length_cons]
      push_cast
      ring

/-- The mean of a non-empty constant list is the constant. -/
theorem meanVal_const (xs : List ℚ) (c : ℚ) (hne : xs ≠ [])
    (h : ∀ x ∈ xs, x = c) : meanVal xs = c := by
  have hlen : ((xs.length : ℚ)) ≠ 0 := by
    have h0 : xs.length ≠ 0 := fun hh => hne (List.length_eq_zero.mp hh)
    exact_mod_cast h0
  rw [meanVal, sum_const xs c h, mul_comm, mul_div_assoc, div_self hlen,
    mul_one]

/-- Claim C6: with fewer than two qualifying points or an all-identical x
column the regression trend is Undefined instead of a division by zero. -/
theorem regressionTrend_degenerate (w : List Obs) (mx my : Metric)
    (h : (pairVals w mx my).length < 2 ∨
      ∃ c, ∀ p ∈ pairVals w mx my, p.1 = c) :
    regressionTrend w mx my = none := by
  simp only [regressionTrend]
  by_cases hlen : (pairVals w mx my).length < 2
  · rw [if_pos hlen]
  · rw [if_neg hlen]
    rcases h with h | ⟨c, hc⟩
    · exact absurd h hlen
    · have hne : pairVals w mx my ≠ [] := by
        intro h0
        rw [h0] at hlen
        exact hlen (by norm_num)
      have hxbar : meanVal ((pairVals w mx my).map Prod.fst) = c :=
        meanVal_const _ c (by simpa using hne)
          (fun x hx => by
            obtain ⟨p, hp, rfl⟩ := List.mem_map.mp hx
            exact hc p hp)
      have hsxx : ((pairVals w mx my).map
          (fun p => (p.1 - meanVal ((pairVals w mx my).map Prod.fst)) ^ 2)).sum
            = 0 := by
        apply List.sum_eq_zero
        intro x hx
        obtain ⟨p, hp, rfl⟩ := List.mem_map.mp hx
        rw [hxbar, hc p hp]
        ring
      rw [if_pos hsxx]

/-- Witness for C6: fuel constant at 300 across ten observations. -/
theorem regressionTrend_degenerate_witness :
    regressionTrend constWindow .fuelConsumed .efficiency = none :=
  regressionTrend_degenerate constWindow .fuelConsumed .efficiency
    (Or.inr ⟨300, by decide⟩)

/-- Claim C10: every efficiency value produced by the synthetic generator
lies in the closed interval [65, 95], whatever the random draws were. -/
theorem generate_sample_data_efficiency_bounds (n : ℕ) (dates : ℕ → ℤ)
    (baseFuel noise temp pres hours steamNoise : ℕ → ℚ) :
    ∀ o ∈ generate_sample_data n dates baseFuel noise temp pres hours
        steamNoise, ∀ e, o.efficiency = some e → 65 ≤ e ∧ e ≤ 95 := by
  intro o ho e he
  obtain ⟨i, hi, rfl⟩ := List.mem_map.mp ho
  obtain rfl : clip 65 95 (85 - (baseFuel i - 300) ^ 2 / 8000 + noise i) = e :=
    Option.some.inj he
  constructor
  · exact le_min (le_max_right _ _) (by norm_num)
  · exact min_le_right _ _

/-- Witness for C10 at one concrete draw (fuel 300, no noise, efficiency
exactly 85). -/
theorem generate_sample_data_efficiency_bounds_witness :
    (65 : ℚ) ≤ 85 ∧ (85 : ℚ) ≤ 95 := by
  have h := generate_sample_data_efficiency_bounds 1 (fun _ => 0)
    (fun _ => 300) (fun _ => 0) (fun _ => 90) (fun _ => 30) (fun _ => 12)
    (fun _ => 0)
    { date := 0
      efficiency := some (clip 65 95 (85 - ((300 : ℚ) - 300) ^ 2 / 8000 + 0))
      fuelConsumed := some 300
      temperature := some 90
      pressure := some 30
      operatingHours := some 12
      steamOutput := some ((300 : ℚ) * 5 / 2 + 0) }
    (by simp [generate_sample_data])
    (clip 65 95 (85 - ((300 : ℚ) - 300) ^ 2 / 8000 + 0)) rfl
  have hc : clip 65 95 (85 - ((300 : ℚ) - 300) ^ 2 / 8000 + 0) = 85 := by
    norm_num [clip, max_def, min_def]
  rwa [hc] at h

/-- Claim C4: the low-efficiency alert fires exactly when the latest window
observation's efficiency is strictly below the dataset's 25th-percentile
threshold; at exact equality no low-efficiency alert is produced. -/
theorem detectAlerts_lowEfficiency (D w : List Obs) (o : Obs) (e t : ℚ)
    (hw : latestObs w = some o) (he : o.efficiency = some e)
    (ht : quantile (1/4) (metricVals D .efficiency) = some t) :
    ((∃ a ∈ detectAlerts D w, a.kind = AlertKind.lowEfficiency) ↔ e < t) ∧
    (e = t → ∀ a ∈ detectAlerts D w, a.kind ≠ AlertKind.lowEfficiency) := by
  have main : (∃ a ∈ detectAlerts D w, a.kind = AlertKind.lowEfficiency) ↔
      e < t := by
    constructor
    · rintro ⟨a, ha, hk⟩
      simp only [detectAlerts, hw, he, ht] at ha
      rcases List.mem_append.mp ha with h | h
      · by_cases hlt : e < t
        · exact hlt
        · rw [if_neg hlt] at h
          simp at h
      · exfalso
        cases hf : o.fuelConsumed with
        | none => rw [hf] at h; simp at h
        | some f =>
            cases hq : quantile (3/4) (metricVals D .fuelConsumed) with
            | none => rw [hf, hq] at h; simp at h
            | some t2 =>
                rw [hf, hq] at h
                by_cases hgt : t2 < f
                · simp [hgt] at h
                  rw [h] at hk
                  simp at hk
                · simp [hgt] at h
    · intro hlt
      refine ⟨⟨.lowEfficiency, .high⟩, ?_, rfl⟩
      simp only [detectAlerts, hw, he, ht]
      simp [hlt]
  refine ⟨main, fun het a ha hk => ?_⟩
  have := main.mp ⟨a, ha, hk⟩
  rw [het] at this
  exact lt_irrefl t this

/-- Witness for C4: on a four-day dataset with efficiencies 70, 80, 75, 85
the 25th percentile is 295/4 and a window ending on the first day (latest
efficiency 70 < 295/4) triggers the low-efficiency alert. -/
theorem detectAlerts_lowEfficiency_witness :
    ∃ a ∈ detectAlerts [obsA, obsB, obsC, obsE] [obsA],
      a.kind = AlertKind.lowEfficiency :=
  ((detectAlerts_lowEfficiency [obsA, obsB, obsC, obsE] [obsA] obsA 70
      (295/4) rfl rfl
      (by
        have hm : metricVals [obsA, obsB, obsC, obsE] .efficiency =
            [70, 80, 75, 85] := rfl
        rw [hm]
        norm_num [quantile, sortedVals, ratFloor, List.insertionSort,
          List.orderedInsert, List.getD])).1).mpr (by norm_num)

/-- Pointwise equal functions map a list identically. -/
theorem map_ext_on {α β : Type} (l : List α) (f g : α → β)
    (h : ∀ x ∈ l, f x = g x) : l.map f = l.map g := by
  induction l with
  | nil => rfl
  | cons a t ih =>
      rw [List.map_cons, List.map_cons, h a (List.mem_cons_self a t),
        ih (fun x hx => h x (List.mem_cons_of_mem a hx))]

/-- Swapping the two metrics swaps every qualifying pair. -/
theorem pairVals_swap (w : List Obs) (a b : Metric) :
    pairVals w b a = (pairVals w a b).map Prod.swap := by
  induction w with
  | nil => rfl
  | cons o t ih =>
      cases ha : o.val a <;> cases hb : o.val b <;>
        simp [pairVals, List.filterMap_cons, ha, hb, ih] <;> exact ih

/-- On the diagonal every qualifying pair duplicates the metric value. -/
theorem pairVals_diag (w : List Obs) (a : Metric) :
    pairVals w a a = (metricVals w a).map (fun v => (v, v)) := by
  induction w with
  | nil => rfl
  | cons o t ih =>
      cases ha : o.val a <;>
        simp [pairVals, metricVals, List.filterMap_cons, ha, ih] <;> exact ih

/-- A vanishing sum of squared deviations forces every value to the
reference point. -/
theorem sum_sq_zero (vs : List ℚ) (c : ℚ)
    (h : (vs.map (fun x => (x - c) ^ 2)).sum = 0) : ∀ x ∈ vs, x = c := by
  induction vs with
  | nil => intro x hx; simp at hx
  | cons v t ih =>
      rw [List.map_cons, List.sum_cons] at h
      have h1 : (0 : ℚ) ≤ (v - c) ^ 2 := sq_nonneg _
      have h2 : (0 : ℚ) ≤ (t.map (fun x => (x - c) ^ 2)).sum := by
        apply List.sum_nonneg
        intro x hx
        obtain ⟨y, hy, rfl⟩ := List.mem_map.mp hx
        exact sq_nonneg _
      have hv : (v - c) ^ 2 = 0 := by linarith
      have ht : (t.map (fun x => (x - c) ^ 2)).sum = 0 := by linarith
      intro x hx
      rcases List.mem_cons.mp hx with rfl | hx
      · have hz : x - c = 0 := by
          have := pow_eq_zero_iff (n := 2) (by norm_num) |>.mp hv
          exact this
        linarith
      · exact ih ht x hx

/-- The squared-deviation sum is non-negative. -/
theorem sqDev_nonneg (vs : List ℚ) : 0 ≤ sqDev vs := by
  apply List.sum_nonneg
  intro x hx
  obtain ⟨y, hy, rfl⟩ := List.mem_map.mp hx
  exact sq_nonneg _

/-- Swapping the metric pair swaps the two squared-deviation sums of the
correlation core and keeps the covariance sum. -/
theorem corrCore_symm (w : List Obs) (a b : Metric) :
    corrCore w b a = (corrCore w a b).map (fun t => (t.1, t.2.2, t.2.1)) := by
  have hsw := pairVals_swap w a b
  have h1 : ((pairVals w a b).map Prod.swap).map Prod.fst =
      (pairVals w a b).map Prod.snd := by
    rw [List.map_map]
    rfl
  have h2 : ((pairVals w a b).map Prod.swap).map Prod.snd =
      (pairVals w a b).map Prod.fst := by
    rw [List.map_map]
    rfl
  simp only [corrCore, hsw, List.length_map, h1, h2]
  by_cases hlen : (pairVals w a b).length < 2
  · rw [if_pos hlen, if_pos hlen]
    rfl
  · rw [if_neg hlen, if_neg hlen]
    have h3 : ((pairVals w a b).map Prod.swap).map
        (fun p => (p.1 - meanVal ((pairVals w a b).map Prod.snd)) *
          (p.2 - meanVal ((pairVals w a b).map Prod.fst))) =
        (pairVals w a b).map
          (fun p => (p.1 - meanVal ((pairVals w a b).map Prod.fst)) *
            (p.2 - meanVal ((pairVals w a b).map Prod.snd))) := by
      rw [List.map_map]
      apply map_ext_on
      intro p hp
      show (p.2 - meanVal ((pairVals w a b).map Prod.snd)) *
          (p.1 - meanVal ((pairVals w a b).map Prod.fst)) = _
      ring
    rw [h3, mul_comm (sqDev ((pairVals w a b).map Prod.snd))]
    by_cases hz : sqDev ((pairVals w a b).map Prod.fst) *
        sqDev ((pairVals w a b).map Prod.snd) = 0
    · rw [if_pos hz, if_pos hz]
      rfl
    · rw [if_neg hz, if_neg hz]
      rfl

/-- On the diagonal with at least two values and a non-vanishing
squared-deviation sum the correlation core is the constant triple of that
sum. -/
theorem corrCore_diag (w : List Obs) (a : Metric)
    (hlen : 2 ≤ (metricVals w a).length)
    (hs : sqDev (metricVals w a) ≠ 0) :
    corrCore w a a =
      some (sqDev (metricVals w a), sqDev (metricVals w a),
        sqDev (metricVals w a)) := by
  have hpd := pairVals_diag w a
  have hxs : (pairVals w a a).map Prod.fst = metricVals w a := by
    rw [hpd, List.map_map]
    exact (List.map_id _).symm ▸ rfl
  have hys : (pairVals w a a).map Prod.snd = metricVals w a := by
    rw [hpd, List.map_map]
    exact (List.map_id _).symm ▸ rfl
  have hg1 : ¬ (pairVals w a a).length < 2 := by
    rw [hpd, List.length_map]
    omega
  have hsxy : (pairVals w a a).map
      (fun p => (p.1 - meanVal (metricVals w a)) *
        (p.2 - meanVal (metricVals w a))) =
      (metricVals w a).map
        (fun x => (x - meanVal (metricVals w a)) ^ 2) := by
    rw [hpd, List.map_map]
    apply map_ext_on
    intro v hv
    show (v - meanVal (metricVals w a)) * (v - meanVal (metricVals w a)) = _
    ring
  have hg2 : ¬ sqDev (metricVals w a) * sqDev (metricVals w a) = 0 := by
    rw [mul_self_eq_zero]
    exact hs
  simp only [corrCore, hxs, hys]
  rw [if_neg hg1, hsxy, if_neg hg2]
  rfl

/-- Counterexample to C5 as stated: a window with two non-missing but
identical efficiency values has an Undefined diagonal correlation entry,
not 1.0, because the pandas kernel's divisor sqrt(sxx * syy) is zero. -/
theorem corr_matrix_diag_counterexample :
    (metricVals [obsA, obsF] .efficiency).length = 2 ∧
    corr_matrix [obsA, obsF] .efficiency .efficiency = none := by
  refine ⟨rfl, ?_⟩
  have hc : corrCore [obsA, obsF] .efficiency .efficiency = none := by
    have hp : pairVals [obsA, obsF] .efficiency .efficiency =
        [(70, 70), (70, 70)] := rfl
    simp only [corrCore, hp]
    norm_num [sqDev, meanVal]
  rw [corr_matrix, hc]
  rfl

/-- Claim C5 (amended): the correlation matrix is symmetric; an entry is
Undefined with fewer than two pairwise-complete observations; and the
diagonal entry is 1.0 whenever the metric has at least two non-missing
values that are not all identical. -/
theorem corr_matrix_props (w : List Obs) (a b : Metric) :
    corr_matrix w a b = corr_matrix w b a ∧
    ((pairVals w a b).length < 2 → corr_matrix w a b = none) ∧
    (2 ≤ (metricVals w a).length →
      (∃ x ∈ metricVals w a, ∃ y ∈ metricVals w a, x ≠ y) →
      corr_matrix w a a = some 1) := by
  refine ⟨?_, ?_, ?_⟩
  · rw [corr_matrix, corr_matrix, corrCore_symm w a b]
    cases hc : corrCore w a b with
    | none => rfl
    | some t =>
        simp only [Option.map_some']
        have : ((t.2.2 : ℝ)) * (t.2.1 : ℝ) = (t.2.1 : ℝ) * (t.2.2 : ℝ) :=
          mul_comm _ _
        rw [this]
  · intro h
    have hc : corrCore w a b = none := by
      simp only [corrCore]
      rw [if_pos h]
    rw [corr_matrix, hc]
    rfl
  · intro hlen hneq
    have hs : sqDev (metricVals w a) ≠ 0 := by
      intro h0
      obtain ⟨x, hx, y, hy, hxy⟩ := hneq
      have hall := sum_sq_zero (metricVals w a) (meanVal (metricVals w a)) h0
      exact hxy ((hall x hx).trans (hall y hy).symm)
    have hpos : (0 : ℚ) < sqDev (metricVals w a) :=
      lt_of_le_of_ne (sqDev_nonneg _) (Ne.symm hs)
    rw [corr_matrix, corrCore_diag w a hlen hs]
    simp only [Option.map_some']
    have hposR : (0 : ℝ) ≤ (sqDev (metricVals w a) : ℝ) := by
      exact_mod_cast le_of_lt hpos
    rw [Real.sqrt_mul_self hposR]
    have hneR : ((sqDev (metricVals w a) : ℝ)) ≠ 0 := by
      exact_mod_cast hs
    rw [div_self hneR]

/-- Witness for C5 (amended) on a window with efficiencies 70 and 80. -/
theorem corr_matrix_props_witness :
    corr_matrix [obsA, obsB] .efficiency .efficiency = some 1 :=
  (corr_matrix_props [obsA, obsB] .efficiency .efficiency).2.2 (by decide)
    ⟨70, by decide, 80, by decide, by norm_num⟩

end BoilerDashboard
